import Mathlib

/-!
# Verification of the paautin-ai SSE relay layer

Shallow embedding of the streaming-relay logic of the repository
node-red-plugin-paautin-ai: the line buffer that cuts a byte stream into
newline-delimited lines, the per-line JSON event translation of the three
relay variants (companion-server.js direct-pipe relay, the temp-file
polling relay, and the embedded plugin handleClaudeCodeEvent), prompt
assembly, and the /chat request handling around them.

JavaScript values that flow through the relay (results of JSON.parse,
member accesses that can yield undefined) are modelled by the type JVal.
Machinery of the JavaScript platform that the source calls (String.split,
JSON.parse, JSON.stringify, truthiness, string coercion) is embedded
faithfully to its specified behaviour on the values the relay handles.
-/

/-! ## JavaScript values

A JavaScript value as seen by the relay: a JSON value, or undefined
(the result of a member access on an object lacking the key, or on a
primitive).  Arrays and objects are mutual inductives rather than List
fields so that decidable equality can be derived. -/

/-- A JSON number: an exact decimal, the mantissa times ten to the
exponent.  JSON numbers are decimal literals, so every parsed number is
of this form; using it instead of Rat keeps every arithmetic step
reducible, and structural equality on parsed values coincides with
numeric equality up to trailing zeros of the literal (no claim compares
differently spelled numbers). -/
structure JNum where
  mant : Int
  exp10 : Int
  deriving DecidableEq, Repr

mutual
inductive JVal where
  | undefined
  | null
  | bool (b : Bool)
  | num (n : JNum)
  | str (s : String)
  | arr (xs : JArr)
  | obj (kvs : JObj)
  deriving DecidableEq, Repr
inductive JArr where
  | nil
  | cons (hd : JVal) (tl : JArr)
  deriving DecidableEq, Repr
inductive JObj where
  | nil
  | cons (k : String) (v : JVal) (tl : JObj)
  deriving DecidableEq, Repr
end

def JArr.toList : JArr → List JVal
  | .nil => []
  | .cons x xs => x :: xs.toList

def JArr.ofList : List JVal → JArr
  | [] => .nil
  | x :: xs => .cons x (JArr.ofList xs)

def JObj.toList : JObj → List (String × JVal)
  | .nil => []
  | .cons k v rest => (k, v) :: rest.toList

def JObj.ofList : List (String × JVal) → JObj
  | [] => .nil
  | (k, v) :: rest => .cons k v (JObj.ofList rest)

/-- Last binding of a key in an object.  JSON.parse keeps the last
occurrence of a duplicated key, so lookup returns the last match. -/
def JObj.lookupLast (o : JObj) (key : String) : Option JVal :=
  match o with
  | .nil => none
  | .cons k v rest =>
    match rest.lookupLast key with
    | some w => some w
    | none => if k = key then some v else none

/-- JavaScript member access obj.key as used by the relay.  On an object it
returns the bound value or undefined; on every other receiver it returns
undefined.  (On null and undefined receivers JavaScript throws a
TypeError; every use of this function in the embedding sits either behind
a truthiness guard or inside the try/catch of a line handler, where the
thrown case and the undefined case produce the same observable outcome:
no event for that line.  The one place the source performs an unguarded,
uncaught member access on a possibly-null value — body.prompt in
handleChat — is modelled explicitly as a crash outcome there.) -/
def JVal.get : JVal → String → JVal
  | .obj o, key => match o.lookupLast key with
    | some v => v
    | none => .undefined
  | _, _ => .undefined

/-- JavaScript truthiness.  (NaN does not arise: numbers come from
JSON.parse.) -/
def truthy : JVal → Bool
  | .undefined => false
  | .null => false
  | .bool b => b
  | .num n => n.mant ≠ 0
  | .str s => s ≠ ""
  | .arr _ => true
  | .obj _ => true

/-- Array.isArray. -/
def isJsArray : JVal → Bool
  | .arr _ => true
  | _ => false

/-- Elements of a value known to be an array; empty list otherwise. -/
def arrayElems : JVal → List JVal
  | .arr xs => xs.toList
  | _ => []

/-- The guard x.length where x has just been checked truthy:
arrays and strings have a numeric length, any other value gives
undefined, and undefined compared with a number is false. -/
def jsLengthPos : JVal → Bool
  | .arr xs => decide (0 < xs.toList.length)
  | .str s => decide (0 < s.length)
  | _ => false

/-! ## The line buffer

The relay accumulates stream chunks in a buffer, splits on the newline
character, keeps the trailing segment (the incomplete line) for the next
read, and — in the polling variant — flushes the final non-empty
remainder when the stream ends.  Streams are lists of characters;
splitLines is the model of buffer.split followed by lines.pop: it
returns the complete lines and the trailing remainder. -/

def splitLines : List Char → List (List Char) × List Char
  | [] => ([], [])
  | c :: cs =>
    let r := splitLines cs
    if c = '\n' then ([] :: r.1, r.2)
    else
      match r with
      | ([], rest) => ([], c :: rest)
      | (l :: ls, rest) => ((c :: l) :: ls, rest)

/-- Feeding a sequence of chunks through the line buffer, starting from a
given buffer: the emitted complete lines, in order, and the final buffer
contents. -/
def feedChunks (buf : List Char) : List (List Char) → List (List Char) × List Char
  | [] => ([], buf)
  | ch :: rest =>
    let p := splitLines (buf ++ ch)
    let q := feedChunks p.2 rest
    (p.1 ++ q.1, q.2)

/-- End-of-stream flush: the final remainder is emitted as a last line
when non-empty (the polling variant flushes the residual lineBuffer). -/
def flushRemainder (r : List Char) : List (List Char) :=
  if r = [] then [] else [r]

/-- Lines recovered by the incremental chunked process described in the
spec: feed each chunk through the line buffer, then flush the final
non-empty remainder. -/
def relayLines (chunks : List (List Char)) : List (List Char) :=
  let p := feedChunks [] chunks
  p.1 ++ flushRemainder p.2

/-- Lines recovered by splitting the whole unchunked stream in one step:
split once, the complete lines followed by the flushed non-empty
trailing remainder. -/
def oneShotLines (s : List Char) : List (List Char) :=
  let p := splitLines s
  p.1 ++ flushRemainder p.2


/-! ## JSON.stringify

Model of the serializer the relay uses in sseWrite and in prompt
assembly.  A parsed number is an exact decimal and is rendered in plain
decimal with the trailing zeros of its literal stripped, which is how
JavaScript prints such doubles.  An undefined member value is dropped
from an object and rendered null inside an array, as JSON.stringify
does. -/

def hexDigitChar (n : Nat) : Char :=
  (List.drop n ("0123456789abcdef".toList)).headD '0'

/-- Strip factors of ten from the mantissa while the exponent is
negative, fuelled by the exponent magnitude: the canonical form used to
print a decimal the way JavaScript prints the double value (JavaScript
switches to exponential notation only at magnitudes no claim uses). -/
def stripTens : Nat → Int → Int → Int × Int
  | 0, m, e => (m, e)
  | f + 1, m, e =>
    if e < 0 ∧ m % 10 = 0 ∧ m ≠ 0 then stripTens f (m / 10) (e + 1) else (m, e)

def jsNumToString (n : JNum) : String :=
  if n.mant = 0 then "0"
  else
    let p := stripTens (-n.exp10).toNat n.mant n.exp10
    if 0 ≤ p.2 then toString (p.1 * (10 : Int) ^ p.2.toNat)
    else
      let k := (-p.2).toNat
      let mag : Nat := p.1.natAbs
      let ip : Nat := mag / 10 ^ k
      let fp : Nat := mag % 10 ^ k
      let fracDigits := toString fp
      let pad := String.mk (List.replicate (k - fracDigits.length) '0')
      (if p.1 < 0 then "-" else "") ++ toString ip ++ "." ++ pad ++ fracDigits

def escapeJsonChar (c : Char) : String :=
  if c = '"' then "\\\""
  else if c = '\\' then "\\\\"
  else if c = '\n' then "\\n"
  else if c = '\r' then "\\r"
  else if c = '\t' then "\\t"
  else if c = '\x08' then "\\b"
  else if c = '\x0c' then "\\f"
  else if c.toNat < 32 then
    "\\u00" ++ String.singleton (hexDigitChar (c.toNat / 16)) ++
      String.singleton (hexDigitChar (c.toNat % 16))
  else String.singleton c

def escapeJsonString (s : String) : String :=
  String.join (s.toList.map escapeJsonChar)

mutual
def stringifyJV : JVal → String
  | .undefined => "undefined"
  | .null => "null"
  | .bool true => "true"
  | .bool false => "false"
  | .num q => jsNumToString q
  | .str s => "\"" ++ escapeJsonString s ++ "\""
  | .arr xs => "[" ++ stringifyElems xs ++ "]"
  | .obj kvs => "\x7b" ++ String.intercalate "," (stringifyMembers kvs) ++ "\x7d"

def stringifyElems : JArr → String
  | .nil => ""
  | .cons x .nil =>
    (match x with
     | .undefined => "null"
     | v => stringifyJV v)
  | .cons x rest =>
    (match x with
     | .undefined => "null"
     | v => stringifyJV v) ++ "," ++ stringifyElems rest

def stringifyMembers : JObj → List String
  | .nil => []
  | .cons k v rest =>
    match v with
    | .undefined => stringifyMembers rest
    | w => ("\"" ++ escapeJsonString k ++ "\":" ++ stringifyJV w) :: stringifyMembers rest
end

/-! ## JSON.stringify with an indent of two

Model of JSON.stringify(value, null, 2), used by the direct-pipe
companion server and the embedded plugin when injecting the
flow-context node array into the prompt. -/

def indentSpaces (d : Nat) : String :=
  String.mk (List.replicate (2 * d) ' ')

mutual
def stringifyPretty : Nat → JVal → String
  | _, .undefined => "undefined"
  | _, .null => "null"
  | _, .bool true => "true"
  | _, .bool false => "false"
  | _, .num q => jsNumToString q
  | _, .str s => "\"" ++ escapeJsonString s ++ "\""
  | _, .arr .nil => "[]"
  | d, .arr xs => "[\n" ++ prettyElems (d + 1) xs ++ "\n" ++ indentSpaces d ++ "]"
  | d, .obj kvs =>
    match prettyMembers (d + 1) kvs with
    | [] => "\x7b\x7d"
    | parts => "\x7b\n" ++ String.intercalate ",\n" parts ++ "\n" ++ indentSpaces d ++ "\x7d"

def prettyElems : Nat → JArr → String
  | _, .nil => ""
  | d, .cons x .nil =>
    indentSpaces d ++
    (match x with
     | .undefined => "null"
     | v => stringifyPretty d v)
  | d, .cons x rest =>
    indentSpaces d ++
    (match x with
     | .undefined => "null"
     | v => stringifyPretty d v) ++ ",\n" ++ prettyElems d rest

def prettyMembers : Nat → JObj → List String
  | _, .nil => []
  | d, .cons k v rest =>
    match v with
    | .undefined => prettyMembers d rest
    | w => (indentSpaces d ++ "\"" ++ escapeJsonString k ++ "\": " ++ stringifyPretty d w)
        :: prettyMembers d rest
end

/-! ## JavaScript string coercion

The implicit ToString applied by the + operator in prompt assembly. -/

mutual
def jsToString : JVal → String
  | .undefined => "undefined"
  | .null => "null"
  | .bool true => "true"
  | .bool false => "false"
  | .num q => jsNumToString q
  | .str s => s
  | .arr xs => jsArrToString xs
  | .obj _ => "[object Object]"

def jsArrToString : JArr → String
  | .nil => ""
  | .cons x .nil => jsElemToString x
  | .cons x rest => jsElemToString x ++ "," ++ jsArrToString rest

def jsElemToString : JVal → String
  | .undefined => ""
  | .null => ""
  | .bool true => "true"
  | .bool false => "false"
  | .num q => jsNumToString q
  | .str s => s
  | .arr xs => jsArrToString xs
  | .obj _ => "[object Object]"
end

/-! ## JSON.parse

Model of the parser the relay applies to every complete upstream line
and to the request body.  It follows the JSON grammar: optional
whitespace around tokens, string escapes, numbers with optional sign,
fraction and exponent and no leading zeros, arrays, objects, and the
three literals.  Recursion is fuelled; jsonParse supplies fuel larger
than any derivation over the input needs.  Any input that does not
parse as a single JSON value with only trailing whitespace yields
none, the model of a thrown SyntaxError. -/

def jsonWsChar (c : Char) : Bool :=
  c = ' ' ∨ c = '\t' ∨ c = '\n' ∨ c = '\r'

def skipWs : List Char → List Char
  | [] => []
  | c :: cs => if jsonWsChar c then skipWs cs else c :: cs

def hexVal (c : Char) : Option Nat :=
  if '0' ≤ c ∧ c ≤ '9' then some (c.toNat - 48)
  else if 'a' ≤ c ∧ c ≤ 'f' then some (c.toNat - 87)
  else if 'A' ≤ c ∧ c ≤ 'F' then some (c.toNat - 55)
  else none

/-- String body after the opening quote.  Surrogate-pair combination is
not modelled: a \u escape simply becomes the code point when it is a
scalar value (no claim exercises \u escapes). -/
def parseStringLit : Nat → List Char → Option (String × List Char)
  | 0, _ => none
  | _, [] => none
  | fuel + 1, c :: cs =>
    if c = '"' then some ("", cs)
    else if c = '\\' then
      match cs with
      | [] => none
      | e :: cs2 =>
        let dec : Option (Char × List Char) :=
          if e = '"' then some ('"', cs2)
          else if e = '\\' then some ('\\', cs2)
          else if e = '/' then some ('/', cs2)
          else if e = 'b' then some ('\x08', cs2)
          else if e = 'f' then some ('\x0c', cs2)
          else if e = 'n' then some ('\n', cs2)
          else if e = 'r' then some ('\r', cs2)
          else if e = 't' then some ('\t', cs2)
          else if e = 'u' then
            match cs2 with
            | h1 :: h2 :: h3 :: h4 :: cs3 =>
              match hexVal h1, hexVal h2, hexVal h3, hexVal h4 with
              | some a, some b, some c3, some d =>
                some (Char.ofNat (((a * 16 + b) * 16 + c3) * 16 + d), cs3)
              | _, _, _, _ => none
            | _ => none
          else none
        match dec with
        | none => none
        | some (ch, rest) =>
          match parseStringLit fuel rest with
          | none => none
          | some (s, rest2) => some (String.singleton ch ++ s, rest2)
    else if c.toNat < 32 then none
    else
      match parseStringLit fuel cs with
      | none => none
      | some (s, rest) => some (String.singleton c ++ s, rest)

def isDigitChar (c : Char) : Bool := '0' ≤ c ∧ c ≤ '9'

def takeDigits : List Char → List Char × List Char
  | [] => ([], [])
  | c :: cs =>
    if isDigitChar c then
      let p := takeDigits cs
      (c :: p.1, p.2)
    else ([], c :: cs)

def digitsToNat (ds : List Char) : Nat :=
  ds.foldl (fun acc c => acc * 10 + (c.toNat - 48)) 0

def parseExponent (s : List Char) : Option (Int × List Char) :=
  let sgn : Bool × List Char :=
    match s with
    | '+' :: rest => (false, rest)
    | '-' :: rest => (true, rest)
    | _ => (false, s)
  let p := takeDigits sgn.2
  if p.1 = [] then none
  else some (if sgn.1 then -(digitsToNat p.1 : Int) else (digitsToNat p.1 : Int), p.2)

def parseNumberLit (s0 : List Char) : Option (JNum × List Char) :=
  let sgn : Bool × List Char :=
    match s0 with
    | '-' :: rest => (true, rest)
    | _ => (false, s0)
  let p1 := takeDigits sgn.2
  if p1.1 = [] then none
  else if 1 < p1.1.length ∧ p1.1.head? = some '0' then none
  else
    let frac : Option (Nat × Nat × List Char) :=
      match p1.2 with
      | '.' :: rest =>
        let p2 := takeDigits rest
        if p2.1 = [] then none else some (digitsToNat p2.1, p2.1.length, p2.2)
      | _ => some (0, 0, p1.2)
    match frac with
    | none => none
    | some (fval, flen, s2) =>
      let ex : Option (Int × List Char) :=
        match s2 with
        | 'e' :: rest => parseExponent rest
        | 'E' :: rest => parseExponent rest
        | _ => some (0, s2)
      match ex with
      | none => none
      | some (e, s3) =>
        let mant : Int := (digitsToNat p1.1 : Int) * (10 : Int) ^ flen + (fval : Int)
        some (⟨if sgn.1 then -mant else mant, e - (flen : Int)⟩, s3)

mutual
def parseVal : Nat → List Char → Option (JVal × List Char)
  | 0, _ => none
  | fuel + 1, s =>
    match skipWs s with
    | [] => none
    | c :: cs =>
      if c = '"' then
        match parseStringLit (cs.length + 1) cs with
        | none => none
        | some (str, rest) => some (.str str, rest)
      else if c = '[' then
        match skipWs cs with
        | ']' :: rest => some (.arr .nil, rest)
        | _ =>
          match parseElems fuel cs with
          | none => none
          | some (xs, rest) => some (.arr xs, rest)
      else if c = '\x7b' then
        match skipWs cs with
        | '\x7d' :: rest => some (.obj .nil, rest)
        | _ =>
          match parseMembers fuel cs with
          | none => none
          | some (kvs, rest) => some (.obj kvs, rest)
      else if (c :: cs).take 4 = "null".toList then some (.null, (c :: cs).drop 4)
      else if (c :: cs).take 4 = "true".toList then some (.bool true, (c :: cs).drop 4)
      else if (c :: cs).take 5 = "false".toList then some (.bool false, (c :: cs).drop 5)
      else
        match parseNumberLit (c :: cs) with
        | none => none
        | some (q, rest) => some (.num q, rest)

def parseElems : Nat → List Char → Option (JArr × List Char)
  | 0, _ => none
  | fuel + 1, s =>
    match parseVal fuel s with
    | none => none
    | some (v, rest) =>
      match skipWs rest with
      | ',' :: rest2 =>
        match parseElems fuel rest2 with
        | none => none
        | some (xs, rest3) => some (.cons v xs, rest3)
      | ']' :: rest2 => some (.cons v .nil, rest2)
      | _ => none

def parseMembers : Nat → List Char → Option (JObj × List Char)
  | 0, _ => none
  | fuel + 1, s =>
    match skipWs s with
    | '"' :: cs =>
      match parseStringLit (cs.length + 1) cs with
      | none => none
      | some (key, rest) =>
        match skipWs rest with
        | ':' :: rest2 =>
          match parseVal fuel rest2 with
          | none => none
          | some (v, rest3) =>
            match skipWs rest3 with
            | ',' :: rest4 =>
              match parseMembers fuel rest4 with
              | none => none
              | some (kvs, rest5) => some (.cons key v kvs, rest5)
            | '\x7d' :: rest4 => some (.cons key v .nil, rest4)
            | _ => none
        | _ => none
    | _ => none
end

/-- JSON.parse: a whole string parses to a value with only trailing
whitespace remaining, or fails. -/
def jsonParse (s : String) : Option JVal :=
  match parseVal (2 * s.toList.length + 4) s.toList with
  | none => none
  | some (v, rest) => if skipWs rest = [] then some v else none

/-! ## SSE frames and the per-event translations

A frame is one res.write of the relay: either an sseWrite of a typed
event, rendered as a data: line carrying the JSON object with the type
and content fields followed by a blank line, or the terminal [DONE]
sentinel line.  The three per-event translations below are, in order,
the inline stdout handler of companion-server.js handleChat (cost field
cost_usd), processLine of the temp-file polling companion server
variant (cost field total_cost_usd), and handleClaudeCodeEvent of
paautin-ai-config.js (no cost emission). -/

inductive Frame where
  | event (ty : String) (content : JVal)
  | done
  deriving DecidableEq

/-- The bytes a frame puts on the wire: sseWrite writes
data: JSON.stringify(obj with type and content) and a blank line, and the
sentinel write is the literal data: [DONE] line. -/
def renderFrame : Frame → String
  | .event ty content =>
    "data: " ++ stringifyJV (.obj (.cons "type" (.str ty) (.cons "content" content .nil))) ++ "\n\n"
  | .done => "data: [DONE]\n\n"

def Frame.isEvent : Frame → Bool
  | .event _ _ => true
  | .done => false

/-- An event frame whose rendering is a data: line carrying the JSON
serialization of the type and content object, followed by a blank
line — the frame format the spec requires of every non-sentinel write. -/
def dataJsonFramed (f : Frame) : Bool :=
  match f with
  | .event ty c =>
    decide (renderFrame f =
      "data: " ++ stringifyJV (.obj (.cons "type" (.str ty) (.cons "content" c .nil))) ++ "\n\n")
  | .done => false

def isCostFrame : Frame → Bool
  | .event ty _ => ty = "cost"
  | .done => false

def isResultFrame : Frame → Bool
  | .event ty _ => ty = "result"
  | .done => false

/-- Frames emitted for one content block of an assistant event: the
forEach body shared verbatim by all three variants. -/
def contentBlockFrames (block : JVal) : List Frame :=
  if block.get "type" = .str "text" then
    [.event "text" (block.get "text")]
  else if block.get "type" = .str "tool_use" then
    [.event "tool_use" (.obj (.cons "tool" (block.get "name") (.cons "input" (block.get "input") .nil)))]
  else []

/-- Guard of the assistant branch:
evt.type equals assistant, evt.message is truthy, and
Array.isArray(evt.message.content). -/
def assistantGuard (evt : JVal) : Bool :=
  decide (evt.get "type" = .str "assistant") && truthy (evt.get "message")
    && isJsArray ((evt.get "message").get "content")

/-- Per-event translation of the direct-pipe companion server
(companion-server.js handleChat stdout handler). -/
def companionStdoutEvent (evt : JVal) : List Frame :=
  if assistantGuard evt then
    (arrayElems ((evt.get "message").get "content")).flatMap contentBlockFrames
  else if evt.get "type" = .str "result" then
    (if truthy (evt.get "result") then [.event "result" (evt.get "result")] else [])
    ++ (if evt.get "cost_usd" ≠ .undefined then [.event "cost" (evt.get "cost_usd")] else [])
  else []

/-- Per-event translation of the temp-file polling companion server
variant (processLine body after JSON.parse). -/
def pollStdoutEvent (evt : JVal) : List Frame :=
  if assistantGuard evt then
    (arrayElems ((evt.get "message").get "content")).flatMap contentBlockFrames
  else if evt.get "type" = .str "result" then
    (if truthy (evt.get "result") then [.event "result" (evt.get "result")] else [])
    ++ (if evt.get "total_cost_usd" ≠ .undefined then [.event "cost" (evt.get "total_cost_usd")] else [])
  else []

/-- Per-event translation of the embedded plugin claude-code mode
(handleClaudeCodeEvent in paautin-ai-config.js): no cost branch. -/
def handleClaudeCodeEvent (evt : JVal) : List Frame :=
  if assistantGuard evt then
    (arrayElems ((evt.get "message").get "content")).flatMap contentBlockFrames
  else if evt.get "type" = .str "result" then
    if truthy (evt.get "result") then [.event "result" (evt.get "result")] else []
  else []

/-- The line.trim() emptiness test guarding every line handler.  (The
full Unicode white space set of the JavaScript trim is modelled by its
ASCII members, the only ones a tool CLI emits.) -/
def jsTrimmedEmpty (s : String) : Bool :=
  s.toList.all (fun c => c = ' ' ∨ c = '\t' ∨ c = '\n' ∨ c = '\r' ∨ c = '\x0b' ∨ c = '\x0c')

/-- One complete line through the direct-pipe companion relay: skip a
whitespace-only line, try JSON.parse, silently skip a line that fails
to parse, otherwise translate the event. -/
def companionStdoutLine (line : String) : List Frame :=
  if jsTrimmedEmpty line then []
  else
    match jsonParse line with
    | none => []
    | some evt => companionStdoutEvent evt

/-- processLine of the polling variant: same shape with the polling
translation. -/
def processLine (line : String) : List Frame :=
  if jsTrimmedEmpty line then []
  else
    match jsonParse line with
    | none => []
    | some evt => pollStdoutEvent evt

/-- The expected frame per content block as the claim states it: a text
event carrying the block text, or a tool_use event carrying the block
name and input. -/
def blockFrame (b : JVal) : Frame :=
  if b.get "type" = .str "text" then .event "text" (b.get "text")
  else .event "tool_use" (.obj (.cons "tool" (b.get "name") (.cons "input" (b.get "input") .nil)))

/-! ## Prompt assembly

The polling companion server variant composes the full prompt from the
optional flow context, the optional conversation history, and the raw
prompt, by successive string appends into fullPrompt.  The embedded
history values are the parsed JSON message objects; a message content
that is not a string goes through JSON.stringify first, and any content
longer than 500 characters is truncated with a ... marker. -/

/-- The guard: flowContext truthy, flowContext.nodes truthy, and
flowContext.nodes.length greater than zero. -/
def flowContextGuard (fc : JVal) : Bool :=
  truthy fc && truthy (fc.get "nodes") && jsLengthPos (fc.get "nodes")

/-- The fenced flow-context block of the polling variant: tab label
falling back to tab id, node count, and the plain JSON.stringify of the
node array inside a json code fence. -/
def flowContextBlock (fc : JVal) : String :=
  "Context — active Node-RED flow (tab: " ++
  jsToString (if truthy (fc.get "tabLabel") then fc.get "tabLabel" else fc.get "tabId") ++
  ", " ++ jsToString (fc.get "nodeCount") ++ " nodes):\n```json\n" ++
  stringifyJV (fc.get "nodes") ++ "\n```\n\n"

/-- Content of a history message as a string: used as is when it is a
string, otherwise through JSON.stringify.  (A message whose content
field is missing would make JSON.stringify return the undefined value
and the subsequent length access throw; parsed request bodies the
claims quantify over carry a content value, and the model renders the
unreachable undefined case as its string coercion.) -/
def historyContentString (msg : JVal) : String :=
  match msg.get "content" with
  | .str s => s
  | v => stringifyJV v

/-- One history entry of the transcript: role label, content coerced to
a string (JSON.stringify when not a string), truncation to 500
characters with the ... marker, and a newline. -/
def renderHistoryMsg (msg : JVal) : String :=
  let role := if msg.get "role" = .str "user" then "User" else "Assistant"
  let contentRaw := historyContentString msg
  let content := if contentRaw.length > 500 then contentRaw.take 500 ++ "..." else contentRaw
  role ++ ": " ++ content ++ "\n"

/-- fullPrompt assembly of the polling variant, mirroring the
imperative appends: start empty, append the flow-context block when the
guard holds, append the history transcript between its header and the
current-message delimiter when the history is non-empty, and finally
append the prompt itself (string coerced). -/
def composeFullPrompt (promptVal : JVal) (history : List JVal) (fc : JVal) : String :=
  let fp := ""
  let fp := if flowContextGuard fc then fp ++ flowContextBlock fc else fp
  let fp :=
    if history.length > 0 then
      (history.foldl (fun acc msg => acc ++ renderHistoryMsg msg)
        (fp ++ "Conversation history:\n")) ++ "\nCurrent message:\n"
    else fp
  fp ++ jsToString promptVal

/-- The flow-context contribution as the spec describes it: the fenced
block when a flow context with at least one node is present, nothing
otherwise. -/
def flowContextPart (fc : JVal) : String :=
  if flowContextGuard fc then flowContextBlock fc else ""

/-- Concatenation of a list of strings, in order. -/
def concatStrings : List String → String
  | [] => ""
  | s :: rest => s ++ concatStrings rest

/-- The history contribution as the spec describes it: a transcript of
the rendered messages between the header and the current-message
delimiter when the history is non-empty, nothing otherwise. -/
def transcriptPart (history : List JVal) : String :=
  if history = [] then ""
  else "Conversation history:\n" ++ concatStrings (history.map renderHistoryMsg)
    ++ "\nCurrent message:\n"

/-- Prompt composition of the direct-pipe companion server: only the
flow context is prepended (that variant reads no history field), and
the node array is pretty-printed with an indent of two. -/
def companionPrompt (promptVal : JVal) (fc : JVal) : String :=
  if flowContextGuard fc then
    "Context — active Node-RED flow (tab: " ++
    jsToString (if truthy (fc.get "tabLabel") then fc.get "tabLabel" else fc.get "tabId") ++
    ", " ++ jsToString (fc.get "nodeCount") ++ " nodes):\n```json\n" ++
    stringifyPretty 0 (fc.get "nodes") ++ "\n```\n\n" ++ jsToString promptVal
  else jsToString promptVal

/-! ## The /chat request pipelines

Outcome of one /chat request.  A body that does not parse yields the 400
Invalid JSON reply before any SSE write; a parsed body of null makes the
unguarded body.prompt access throw an uncaught TypeError inside the
async handler (no reply at all) — the crash outcome; a falsy prompt
yields the 400 Missing prompt reply; otherwise the SSE stream is opened
and carries the relay frames.  The outcome type keeps the composed
prompt and the ordered frame list; an httpError or crash outcome opens
no stream, spawns nothing and writes no frame. -/

inductive ChatOutcome where
  | httpError (status : Nat) (body : String)
  | crash
  | sseStream (fullPrompt : String) (frames : List Frame)
  deriving DecidableEq

/-- Spawn outcome of the direct-pipe variant: the try/catch around
spawn catches a synchronous throw.  After a successful spawn the child
produces stdout chunks and then terminates the stream exactly one way:
the close event, or the error event (the failure path of an already
spawned child). -/
inductive SpawnResult where
  | threw (msg : String)
  | ok
  deriving DecidableEq

inductive StreamEnd where
  | closed
  | errored (msg : String)
  deriving DecidableEq

/-- Every frame the direct-pipe relay writes after the SSE headers, in
order.  A spawn throw writes an error event and the sentinel; otherwise
the buffered stdout chunks are cut into lines and translated (the final
unterminated remainder is dropped by this variant), and the terminal
event appends the sentinel, preceded by an error event on the errored
path. -/
def companionRelayFrames (sr : SpawnResult) (chunks : List (List Char)) (ending : StreamEnd) : List Frame :=
  match sr with
  | .threw msg => [.event "error" (.str ("Failed to start claude CLI: " ++ msg)), .done]
  | .ok =>
    ((feedChunks [] chunks).1.map (fun l => String.mk l)).flatMap companionStdoutLine
    ++ (match ending with
        | .closed => [Frame.done]
        | .errored msg => [.event "error" (.str ("claude CLI error: " ++ msg)), .done])

/-- Every frame the polling relay writes, in order: the lines recovered
from the successive file reads, the flush of a final non-whitespace
remainder once the child is gone and the file fully consumed, then the
sentinel. -/
def pollRelayFrames (chunks : List (List Char)) : List Frame :=
  ((feedChunks [] chunks).1.map (fun l => String.mk l)).flatMap processLine
  ++ (if jsTrimmedEmpty (String.mk (feedChunks [] chunks).2) then []
      else processLine (String.mk (feedChunks [] chunks).2))
  ++ [Frame.done]

/-- The polling variant /chat handler: body parse, the unguarded
body.prompt access, the Missing prompt reply, prompt composition
(body.prompt, body.flowContext and body.history defaulted exactly as
the source defaults them), then the SSE stream of the polled output. -/
def handleChatPoll (bodyStr : String) (outChunks : List (List Char)) : ChatOutcome :=
  match jsonParse bodyStr with
  | none => .httpError 400 "\x7b\"error\":\"Invalid JSON\"\x7d"
  | some body =>
    if body = .null then .crash
    else
      let promptVal := if truthy (body.get "prompt") then body.get "prompt" else .str ""
      let fcVal := if truthy (body.get "flowContext") then body.get "flowContext" else .null
      let historyVal := if truthy (body.get "history") then body.get "history" else .arr .nil
      if ¬ truthy promptVal then .httpError 400 "\x7b\"error\":\"Missing prompt\"\x7d"
      else .sseStream (composeFullPrompt promptVal (arrayElems historyVal) fcVal)
        (pollRelayFrames outChunks)

/-- The direct-pipe variant /chat handler, same request phase, then the
SSE stream of the subprocess relay. -/
def handleChatCompanion (bodyStr : String) (sr : SpawnResult) (chunks : List (List Char))
    (ending : StreamEnd) : ChatOutcome :=
  match jsonParse bodyStr with
  | none => .httpError 400 "\x7b\"error\":\"Invalid JSON\"\x7d"
  | some body =>
    if body = .null then .crash
    else
      let promptVal := if truthy (body.get "prompt") then body.get "prompt" else .str ""
      let fcVal := if truthy (body.get "flowContext") then body.get "flowContext" else .null
      if ¬ truthy promptVal then .httpError 400 "\x7b\"error\":\"Missing prompt\"\x7d"
      else .sseStream (companionPrompt promptVal fcVal) (companionRelayFrames sr chunks ending)

/-! ## Client-disconnect behaviour

Handler-level trace machines for the cancellation claim.  A trace is
the ordered sequence of handler invocations the Node event loop
delivers for one request; each step returns the next state and the
writes the handler performs, each write tagged with whether the client
had already disconnected when it was made. -/

inductive DirEvent where
  | stdoutData (chunk : List Char)
  | procClose
  | procError (msg : String)
  | reqClose
  deriving DecidableEq

structure DirState where
  buffer : List Char
  killed : Bool
  disconnected : Bool
  deriving DecidableEq

def dirInit : DirState := ⟨[], false, false⟩

/-- One handler invocation of the direct-pipe relay.  The stdout
handler buffers and translates unconditionally; the close handler
writes the sentinel unconditionally; the error handler writes an error
event and the sentinel; the request close handler records the
disconnect and sends SIGTERM to a not yet killed child — and writes
nothing, but nothing stops the other handlers from writing
afterwards. -/
def dirStep (st : DirState) (e : DirEvent) : DirState × List (Bool × Frame) :=
  match e with
  | .stdoutData ch =>
    let p := splitLines (st.buffer ++ ch)
    ({ st with buffer := p.2 },
     ((p.1.map (fun l => String.mk l)).flatMap companionStdoutLine).map (fun f => (st.disconnected, f)))
  | .procClose => (st, [(st.disconnected, Frame.done)])
  | .procError msg =>
    (st, [(st.disconnected, Frame.event "error" (.str ("claude CLI error: " ++ msg))),
          (st.disconnected, Frame.done)])
  | .reqClose => ({ st with disconnected := true, killed := true }, [])

def dirRun (st : DirState) : List DirEvent → DirState × List (Bool × Frame)
  | [] => (st, [])
  | e :: es =>
    let p := dirStep st e
    let q := dirRun p.1 es
    (q.1, p.2 ++ q.2)

inductive PollEvent where
  | poll (newData : List Char) (alive : Bool)
  | reqClose
  deriving DecidableEq

structure PollState where
  lineBuffer : List Char
  closed : Bool
  finished : Bool
  groupKilled : Bool
  deriving DecidableEq

def pollInit : PollState := ⟨[], false, false, false⟩

/-- One handler invocation of the polling relay.  The request close
handler sets the closed flag and kills the detached process group; a
poll tick returns immediately once closed (or once the stream was
finished with the sentinel), otherwise translates the newly read bytes,
and when the child is gone and the file is fully consumed flushes the
remainder, writes the sentinel and stops. -/
def pollStep (st : PollState) (e : PollEvent) : PollState × List (Bool × Frame) :=
  match e with
  | .reqClose => ({ st with closed := true, groupKilled := true }, [])
  | .poll newData alive =>
    if st.closed ∨ st.finished then (st, [])
    else
      let p := splitLines (st.lineBuffer ++ newData)
      let fs := (p.1.map (fun l => String.mk l)).flatMap processLine
      if alive then
        ({ st with lineBuffer := p.2 }, fs.map (fun f => (st.closed, f)))
      else
        let flush :=
          if jsTrimmedEmpty (String.mk p.2) then [] else processLine (String.mk p.2)
        ({ st with lineBuffer := p.2, finished := true },
         (fs ++ flush ++ [Frame.done]).map (fun f => (st.closed, f)))

def pollRun (st : PollState) : List PollEvent → PollState × List (Bool × Frame)
  | [] => (st, [])
  | e :: es =>
    let p := pollStep st e
    let q := pollRun p.1 es
    (q.1, p.2 ++ q.2)

/-- How many times the sentinel was written. -/
def doneCount (out : List Frame) : Nat :=
  out.countP (fun f => decide (f = Frame.done))

/-- Well-formedness of a finished SSE stream: the last frame written is
the sentinel, the sentinel is written exactly once, and every earlier
frame is an sseWrite event frame rendered in the data: JSON form. -/
def sseWellFormed (out : List Frame) : Prop :=
  out.getLast? = some Frame.done ∧ doneCount out = 1
    ∧ out.dropLast.all dataJsonFramed = true

/-! ## Bytes and the UTF-8 decode of each read chunk

The relay receives raw byte chunks (stdout data events, or fs.readSync
reads of the output file) and decodes each chunk independently with
Buffer.toString before appending it to the line buffer.  Bytes are
naturals below 256; the decode is the WHATWG UTF-8 decoder, which
replaces every maximal invalid subpart with one U+FFFD replacement
character — in particular a chunk boundary inside a multi-byte
character makes the two halves decode to replacement characters. -/

/-- The replacement character. -/
def replChar : Char := '\uFFFD'

/-- One byte examined with no sequence in progress: an ASCII byte is
emitted, a lead byte opens a sequence — returning how many continuation
bytes are needed, the code point bits so far, and the admissible range
of the next byte (narrowed after E0, ED, F0 and F4 exactly as the
WHATWG UTF-8 decoder prescribes) — and any other byte is one
replacement character. -/
def utf8Start (b : Nat) : List Char × (Nat × Nat × Nat × Nat) :=
  if b < 0x80 then ([Char.ofNat b], (0, 0, 0x80, 0xBF))
  else if 0xC2 ≤ b ∧ b ≤ 0xDF then ([], (1, b - 0xC0, 0x80, 0xBF))
  else if 0xE0 ≤ b ∧ b ≤ 0xEF then
    ([], (2, b - 0xE0, if b = 0xE0 then 0xA0 else 0x80, if b = 0xED then 0x9F else 0xBF))
  else if 0xF0 ≤ b ∧ b ≤ 0xF4 then
    ([], (3, b - 0xF0, if b = 0xF0 then 0x90 else 0x80, if b = 0xF4 then 0x8F else 0xBF))
  else ([replChar], (0, 0, 0x80, 0xBF))

/-- The WHATWG UTF-8 decoder as a byte-at-a-time state machine: the
state is the count of continuation bytes still needed, the code point
bits collected, and the admissible range of the next byte.  A byte
outside the range ends the sequence with one replacement character and
is reprocessed as a fresh byte; a truncated sequence at end of stream
is one replacement character. -/
def utf8Run : Nat → Nat → Nat → Nat → List Nat → List Char
  | needed, _, _, _, [] => if needed = 0 then [] else [replChar]
  | 0, _, _, _, b :: rest =>
    let p := utf8Start b
    p.1 ++ utf8Run p.2.1 p.2.2.1 p.2.2.2.1 p.2.2.2.2 rest
  | needed + 1, cp, lo, hi, b :: rest =>
    if lo ≤ b ∧ b ≤ hi then
      if needed = 0 then Char.ofNat (cp * 64 + (b - 0x80)) :: utf8Run 0 0 0x80 0xBF rest
      else utf8Run needed (cp * 64 + (b - 0x80)) 0x80 0xBF rest
    else
      let p := utf8Start b
      replChar :: (p.1 ++ utf8Run p.2.1 p.2.2.1 p.2.2.2.1 p.2.2.2.2 rest)

/-- Model of Buffer.toString with the utf8 encoding: the WHATWG UTF-8
decoder run from the initial state.  A well-formed sequence becomes its
code point; every maximal invalid subpart becomes one replacement
character. -/
def utf8Decode (bytes : List Nat) : List Char :=
  utf8Run 0 0 0x80 0xBF bytes

/-- The UTF-8 encoding of one character. -/
def utf8EncodeChar (c : Char) : List Nat :=
  let n := c.toNat
  if n < 0x80 then [n]
  else if n < 0x800 then [0xC0 + n / 64, 0x80 + n % 64]
  else if n < 0x10000 then [0xE0 + n / 4096, 0x80 + n / 64 % 64, 0x80 + n % 64]
  else [0xF0 + n / 262144, 0x80 + n / 4096 % 64, 0x80 + n / 64 % 64, 0x80 + n % 64]

/-- The UTF-8 encoding of a character sequence. -/
def utf8Encode (cs : List Char) : List Nat :=
  cs.flatMap utf8EncodeChar

/-- The chunked line recovery on raw byte chunks, as the source runs
it: every read chunk is decoded with Buffer.toString on its own, then
fed through the line buffer, with the final non-empty remainder
flushed at end of stream. -/
def byteRelayLines (chunks : List (List Nat)) : List (List Char) :=
  relayLines (chunks.map utf8Decode)

/-- The one-step split of the whole unchunked byte stream: decode once,
split once, flush the non-empty trailing remainder. -/
def byteOneShotLines (stream : List Nat) : List (List Char) :=
  oneShotLines (utf8Decode stream)

/-! ## Concrete values used by witnesses and counterexamples -/

/-- A text content block carrying the text hi. -/
def cBlkText : JVal :=
  .obj (.cons "type" (.str "text") (.cons "text" (.str "hi") .nil))

/-- A tool_use content block naming the tool bash with an empty input. -/
def cBlkTool : JVal :=
  .obj (.cons "type" (.str "tool_use")
    (.cons "name" (.str "bash") (.cons "input" (.obj .nil) .nil)))

/-- An assistant event whose message content is the two mixed blocks. -/
def cEvtAssistant : JVal :=
  .obj (.cons "type" (.str "assistant")
    (.cons "message" (.obj (.cons "content" (.arr (JArr.ofList [cBlkText, cBlkTool])) .nil)) .nil))

/-- A result event carrying both a truthy result and a cost_usd field. -/
def cEvtResultCost : JVal :=
  .obj (.cons "type" (.str "result")
    (.cons "result" (.str "ok") (.cons "cost_usd" (.num ⟨2, -2⟩) .nil)))

/-- A result event whose result field is present but the empty string. -/
def cEvtFalsyResult : JVal :=
  .obj (.cons "type" (.str "result")
    (.cons "result" (.str "") (.cons "total_cost_usd" (.num ⟨1, -2⟩) .nil)))

/-! ## Library lemmas for the line buffer -/

theorem splitLines_no_newline (s : List Char) (h : '\n' ∉ s) :
    splitLines s = ([], s) := by
  induction s with
  | nil => rfl
  | cons c cs ih =>
    have h1 : ¬ c = '\n' := fun hc => h (hc ▸ List.mem_cons_self c cs)
    have h2 : '\n' ∉ cs := fun hm => h (List.mem_cons_of_mem c hm)
    simp [splitLines, ih h2, h1]

theorem splitLines_remainder_no_newline (s : List Char) :
    '\n' ∉ (splitLines s).2 := by
  induction s with
  | nil => simp [splitLines]
  | cons c cs ih =>
    by_cases hc : c = '\n'
    · simp [splitLines, hc, ih]
    · simp only [splitLines, if_neg hc]
      cases hr : splitLines cs with
      | mk ls rest =>
        cases ls with
        | nil =>
          simp only []
          intro hm
          rcases List.mem_cons.mp hm with h1 | h2
          · exact hc h1.symm
          · rw [hr] at ih; exact ih h2
        | cons l ls2 =>
          simp only []
          rw [hr] at ih
          exact ih

theorem splitLines_cons_nl (cs : List Char) :
    splitLines ('\n' :: cs) = ([] :: (splitLines cs).1, (splitLines cs).2) := by
  simp [splitLines]

theorem splitLines_cons_ne (c : Char) (cs : List Char) (hc : ¬ c = '\n') :
    splitLines (c :: cs) =
      (match splitLines cs with
       | ([], rest) => ([], c :: rest)
       | (l :: ls, rest) => ((c :: l) :: ls, rest)) := by
  simp only [splitLines, if_neg hc]

/-- Composition law of the split: splitting a concatenation a ++ b first
emits the complete lines of a, then behaves as if the remainder of a had
been prepended to b. -/
theorem splitLines_append (a b : List Char) :
    splitLines (a ++ b) =
      ((splitLines a).1 ++ (splitLines ((splitLines a).2 ++ b)).1,
       (splitLines ((splitLines a).2 ++ b)).2) := by
  induction a with
  | nil => simp [splitLines]
  | cons c cs ih =>
    by_cases hc : c = '\n'
    · subst hc
      rw [List.cons_append, splitLines_cons_nl, splitLines_cons_nl, ih]
      simp
    · rw [List.cons_append, splitLines_cons_ne c _ hc, splitLines_cons_ne c _ hc, ih]
      cases hr : splitLines cs with
      | mk ls rest =>
        cases ls with
        | nil =>
          simp only [List.nil_append]
          rw [List.cons_append, splitLines_cons_ne c _ hc]
        | cons l ls2 => simp

/-- Feeding chunks into the line buffer is the same as splitting the
buffered prefix and the concatenated chunks in one step, provided the
starting buffer holds no newline (which is an invariant of the buffer:
it is always the remainder of a previous split). -/
theorem feedChunks_eq_splitLines (chunks : List (List Char)) (buf : List Char)
    (h : '\n' ∉ buf) :
    feedChunks buf chunks = splitLines (buf ++ chunks.flatten) := by
  induction chunks generalizing buf with
  | nil => simp [feedChunks, splitLines_no_newline buf h]
  | cons ch rest ih =>
    simp only [feedChunks, List.flatten_cons]
    rw [ih (splitLines (buf ++ ch)).2 (splitLines_remainder_no_newline _),
      ← List.append_assoc, splitLines_append (buf ++ ch) rest.flatten]

/-! ## Library lemmas for frames and the event translations -/

theorem dataJsonFramed_event (ty : String) (c : JVal) :
    dataJsonFramed (.event ty c) = true := by
  simp [dataJsonFramed, renderFrame]

theorem contentBlockFrames_all (b : JVal) :
    (contentBlockFrames b).all dataJsonFramed = true := by
  unfold contentBlockFrames
  split_ifs <;> simp [dataJsonFramed_event]

theorem flatMap_content_all (bs : List JVal) :
    (bs.flatMap contentBlockFrames).all dataJsonFramed = true := by
  induction bs with
  | nil => rfl
  | cons b rest ih => simp [List.flatMap_cons, List.all_append, contentBlockFrames_all, ih]

theorem companionStdoutEvent_all (evt : JVal) :
    (companionStdoutEvent evt).all dataJsonFramed = true := by
  unfold companionStdoutEvent
  split_ifs
  · exact flatMap_content_all _
  all_goals simp [List.all_append, dataJsonFramed_event]

theorem pollStdoutEvent_all (evt : JVal) :
    (pollStdoutEvent evt).all dataJsonFramed = true := by
  unfold pollStdoutEvent
  split_ifs
  · exact flatMap_content_all _
  all_goals simp [List.all_append, dataJsonFramed_event]

theorem companionStdoutLine_all (line : String) :
    (companionStdoutLine line).all dataJsonFramed = true := by
  unfold companionStdoutLine
  split_ifs
  · rfl
  · cases h : jsonParse line <;> simp [companionStdoutEvent_all]

theorem processLine_all (line : String) :
    (processLine line).all dataJsonFramed = true := by
  unfold processLine
  split_ifs
  · rfl
  · cases h : jsonParse line <;> simp [pollStdoutEvent_all]

theorem flatMap_all_of (g : String → List Frame)
    (h : ∀ s, (g s).all dataJsonFramed = true) (ls : List String) :
    (ls.flatMap g).all dataJsonFramed = true := by
  induction ls with
  | nil => rfl
  | cons s rest ih => simp [List.flatMap_cons, List.all_append, h s, ih]

/-- A run of data: JSON event frames closed by one sentinel is a
well-formed SSE stream. -/
theorem sseWellFormed_concat (evs : List Frame) (h : evs.all dataJsonFramed = true) :
    sseWellFormed (evs ++ [Frame.done]) := by
  refine ⟨List.getLast?_concat evs, ?_, ?_⟩
  · unfold doneCount
    rw [List.countP_append]
    have h0 : evs.countP (fun f => decide (f = Frame.done)) = 0 := by
      rw [List.countP_eq_zero]
      intro a ha hd
      have h1 := List.all_eq_true.mp h a ha
      have h2 : a = Frame.done := of_decide_eq_true hd
      rw [h2] at h1
      simp [dataJsonFramed] at h1
    simp [h0, List.countP_cons]
  · rw [List.dropLast_concat]; exact h

/-! ## The claims -/

/-- At the character level, feeding chunks one at a time through the
line buffer (append chunk, split on newline, keep the trailing partial
segment, flush the final non-empty remainder at end of stream) recovers
exactly the one-step split of the concatenated character stream. -/
theorem relayLines_eq_oneShotLines (chunks : List (List Char)) :
    relayLines chunks = oneShotLines chunks.flatten := by
  have h := feedChunks_eq_splitLines chunks [] (by simp)
  simp [relayLines, oneShotLines, h]

/-- C2: for every input byte stream fed to the subprocess relay (any
spawn outcome, any chunking of the stdout stream, a normal or an
errored stream end, and likewise for the polled output file), every
frame written is an sseWrite data: JSON frame of the type and content
object, and the stream ends with exactly one [DONE] sentinel — never
zero and never more than one. -/
theorem claim_C2_sse_framing (sr : SpawnResult) (chunks : List (List Char)) (ending : StreamEnd) :
    sseWellFormed (companionRelayFrames sr chunks ending)
    ∧ sseWellFormed (pollRelayFrames chunks) := by
  constructor
  · cases sr with
    | threw msg =>
      exact sseWellFormed_concat
        [.event "error" (.str ("Failed to start claude CLI: " ++ msg))]
        (by simp [dataJsonFramed_event])
    | ok =>
      cases ending with
      | closed =>
        exact sseWellFormed_concat _ (flatMap_all_of _ companionStdoutLine_all _)
      | errored msg =>
        have h := sseWellFormed_concat
          ((((feedChunks [] chunks).1.map (fun l => String.mk l)).flatMap companionStdoutLine)
            ++ [.event "error" (.str ("claude CLI error: " ++ msg))])
          (by simp [List.all_append, flatMap_all_of _ companionStdoutLine_all,
                dataJsonFramed_event])
        rw [List.append_assoc] at h
        exact h
  · unfold pollRelayFrames
    apply sseWellFormed_concat
    rw [List.all_append]
    have h1 := flatMap_all_of _ processLine_all
      ((feedChunks [] chunks).1.map (fun l => String.mk l))
    have h2 : (if jsTrimmedEmpty (String.mk (feedChunks [] chunks).2) then ([] : List Frame)
        else processLine (String.mk (feedChunks [] chunks).2)).all dataJsonFramed = true := by
      split_ifs <;> simp [processLine_all]
    simp [h1, h2]

/-- C4: the request with body prompt hi, no history and no flow context
composes the prompt hi unchanged, and a subprocess output consisting of
the assistant line carrying the text hello and the result line carrying
result ok and total_cost_usd 0.01 makes the relay emit, in order, a
text event with hello, a result event with ok, a cost event with 0.01,
and the [DONE] sentinel. -/
theorem claim_C4_concrete_example :
    handleChatPoll "\x7b\"prompt\":\"hi\"\x7d"
      [("\x7b\"type\":\"assistant\",\"message\":\x7b\"content\":[\x7b\"type\":\"text\",\"text\":\"hello\"\x7d]\x7d\x7d\n\x7b\"type\":\"result\",\"result\":\"ok\",\"total_cost_usd\":0.01\x7d\n").toList]
    = ChatOutcome.sseStream "hi"
        [Frame.event "text" (.str "hello"), Frame.event "result" (.str "ok"),
         Frame.event "cost" (.num ⟨1, -2⟩), Frame.done] := by
  decide

theorem JArr.toList_ofList (l : List JVal) : (JArr.ofList l).toList = l := by
  induction l with
  | nil => rfl
  | cons x xs ih => simp [JArr.ofList, JArr.toList, ih]

/-- On a block list of only text and tool_use blocks, the forEach of
the assistant branch emits exactly one frame per block, the frame the
claim expects. -/
theorem flatMap_content_eq_map (blocks : List JVal)
    (h : ∀ b ∈ blocks, b.get "type" = .str "text" ∨ b.get "type" = .str "tool_use") :
    blocks.flatMap contentBlockFrames = blocks.map blockFrame := by
  induction blocks with
  | nil => rfl
  | cons b bs ih =>
    have hb := h b (List.mem_cons_self b bs)
    have hrest : ∀ x ∈ bs, x.get "type" = .str "text" ∨ x.get "type" = .str "tool_use" :=
      fun x hx => h x (List.mem_cons_of_mem b hx)
    rw [List.flatMap_cons, List.map_cons, ih hrest]
    rcases hb with h1 | h1
    · simp [contentBlockFrames, blockFrame, h1]
    · have h2 : ¬ ((b.get "type") = JVal.str "text") := by
        rw [h1]; decide
      simp [contentBlockFrames, blockFrame, h1, h2]

/-- C3: an assistant event whose message content is an array of N
blocks, each text or tool_use, makes all three translations emit
exactly N SSE events, in block order: a text event carrying the block
text for a text block and a tool_use event carrying the tool name and
input for a tool_use block. -/
theorem claim_C3_assistant_blocks (evt : JVal) (blocks : List JVal)
    (h1 : evt.get "type" = .str "assistant")
    (h2 : truthy (evt.get "message") = true)
    (h3 : (evt.get "message").get "content" = .arr (JArr.ofList blocks))
    (h4 : ∀ b ∈ blocks, b.get "type" = .str "text" ∨ b.get "type" = .str "tool_use") :
    companionStdoutEvent evt = blocks.map blockFrame
    ∧ pollStdoutEvent evt = blocks.map blockFrame
    ∧ handleClaudeCodeEvent evt = blocks.map blockFrame
    ∧ (blocks.map blockFrame).length = blocks.length := by
  have hg : assistantGuard evt = true := by
    simp [assistantGuard, h1, h2, h3, isJsArray]
  have he : arrayElems ((evt.get "message").get "content") = blocks := by
    rw [h3]; simp [arrayElems, JArr.toList_ofList]
  refine ⟨?_, ?_, ?_, List.length_map blocks blockFrame⟩ <;>
    simp [companionStdoutEvent, pollStdoutEvent, handleClaudeCodeEvent, hg, he,
      flatMap_content_eq_map blocks h4]

/-- C3 witness: a concrete assistant event with one text block and one
tool_use block yields exactly the two expected frames, in order, in all
three translations. -/
theorem claim_C3_witness :
    companionStdoutEvent cEvtAssistant = [cBlkText, cBlkTool].map blockFrame
    ∧ pollStdoutEvent cEvtAssistant = [cBlkText, cBlkTool].map blockFrame
    ∧ handleClaudeCodeEvent cEvtAssistant = [cBlkText, cBlkTool].map blockFrame
    ∧ ([cBlkText, cBlkTool].map blockFrame).length = [cBlkText, cBlkTool].length :=
  claim_C3_assistant_blocks cEvtAssistant [cBlkText, cBlkTool]
    (by decide) (by decide) (by decide) (by decide)

theorem contentBlockFrames_no_cost (b : JVal) :
    (contentBlockFrames b).filter (fun f => !(isCostFrame f)) = contentBlockFrames b := by
  unfold contentBlockFrames
  split_ifs <;> simp [isCostFrame]

theorem flatMap_content_no_cost (bs : List JVal) :
    (bs.flatMap contentBlockFrames).filter (fun f => !(isCostFrame f))
      = bs.flatMap contentBlockFrames := by
  induction bs with
  | nil => rfl
  | cons b rest ih =>
    simp only [List.flatMap_cons, List.filter_append, contentBlockFrames_no_cost, ih]

/-- C5 counterexample: on a result event carrying a cost_usd field the
embedded plugin translation and the direct-pipe companion translation
differ — the companion emits a cost event, the plugin does not — so the
two translations are not extensionally equal. -/
theorem claim_C5_counterexample :
    handleClaudeCodeEvent cEvtResultCost ≠ companionStdoutEvent cEvtResultCost := by
  decide

/-- C5 amended: the embedded plugin claude-code per-event translation
equals each companion relay translation with its cost events removed:
they agree on assistant events and on result emission, and only the
companion variants ever emit a cost event. -/
theorem claim_C5_amended_plugin_eq_filtered (evt : JVal) :
    handleClaudeCodeEvent evt = (companionStdoutEvent evt).filter (fun f => !(isCostFrame f))
    ∧ handleClaudeCodeEvent evt = (pollStdoutEvent evt).filter (fun f => !(isCostFrame f)) := by
  constructor <;>
  · simp only [handleClaudeCodeEvent, companionStdoutEvent, pollStdoutEvent]
    split_ifs
    · exact (flatMap_content_no_cost _).symm
    all_goals simp [List.filter_append, isCostFrame]

/-- C7: an upstream line that does not parse as JSON produces no SSE
event in either companion relay variant, and the stream is not aborted:
the lines before and after it are translated exactly as they would be
without it. -/
theorem claim_C7_non_json_line (line : String) (pre post : List String)
    (h : jsonParse line = none) :
    companionStdoutLine line = [] ∧ processLine line = []
    ∧ (pre ++ line :: post).flatMap companionStdoutLine
        = pre.flatMap companionStdoutLine ++ post.flatMap companionStdoutLine
    ∧ (pre ++ line :: post).flatMap processLine
        = pre.flatMap processLine ++ post.flatMap processLine := by
  have e1 : companionStdoutLine line = [] := by
    unfold companionStdoutLine
    split_ifs
    · rfl
    · rw [h]
  have e2 : processLine line = [] := by
    unfold processLine
    split_ifs
    · rfl
    · rw [h]
  refine ⟨e1, e2, ?_, ?_⟩ <;> simp [List.flatMap_append, List.flatMap_cons, e1, e2]

/-- C7 witness: a concrete tool banner line between two well-formed
result lines is dropped and the neighbours are translated normally. -/
theorem claim_C7_witness :
    companionStdoutLine "claude banner" = [] ∧ processLine "claude banner" = []
    ∧ (["\x7b\"type\":\"result\",\"result\":\"ok\"\x7d"] ++ "claude banner"
          :: ["\x7b\"type\":\"result\",\"result\":\"go\"\x7d"]).flatMap companionStdoutLine
        = ["\x7b\"type\":\"result\",\"result\":\"ok\"\x7d"].flatMap companionStdoutLine
          ++ ["\x7b\"type\":\"result\",\"result\":\"go\"\x7d"].flatMap companionStdoutLine
    ∧ (["\x7b\"type\":\"result\",\"result\":\"ok\"\x7d"] ++ "claude banner"
          :: ["\x7b\"type\":\"result\",\"result\":\"go\"\x7d"]).flatMap processLine
        = ["\x7b\"type\":\"result\",\"result\":\"ok\"\x7d"].flatMap processLine
          ++ ["\x7b\"type\":\"result\",\"result\":\"go\"\x7d"].flatMap processLine :=
  claim_C7_non_json_line "claude banner"
    ["\x7b\"type\":\"result\",\"result\":\"ok\"\x7d"]
    ["\x7b\"type\":\"result\",\"result\":\"go\"\x7d"] (by decide)

/-- C10: a result event whose result field is present but falsy (empty
string, zero, false or null) makes none of the three translations emit
a result event: the source tests truthiness of the value, not presence
of the field. -/
theorem claim_C10_falsy_result (evt : JVal)
    (h1 : evt.get "type" = .str "result")
    (_h2 : evt.get "result" ≠ .undefined)
    (h3 : truthy (evt.get "result") = false) :
    (companionStdoutEvent evt).all (fun f => !(isResultFrame f)) = true
    ∧ (pollStdoutEvent evt).all (fun f => !(isResultFrame f)) = true
    ∧ (handleClaudeCodeEvent evt).all (fun f => !(isResultFrame f)) = true := by
  have hg : assistantGuard evt = false := by
    simp [assistantGuard, h1]
  refine ⟨?_, ?_, ?_⟩
  · simp [companionStdoutEvent, hg, h1, h3, List.all_append, isResultFrame]
  · simp [pollStdoutEvent, hg, h1, h3, List.all_append, isResultFrame]
  · simp [handleClaudeCodeEvent, hg, h1, h3]

/-- C10 witness: a concrete result event with an empty-string result
and a cost field emits no result event in any translation. -/
theorem claim_C10_witness :
    (companionStdoutEvent cEvtFalsyResult).all (fun f => !(isResultFrame f)) = true
    ∧ (pollStdoutEvent cEvtFalsyResult).all (fun f => !(isResultFrame f)) = true
    ∧ (handleClaudeCodeEvent cEvtFalsyResult).all (fun f => !(isResultFrame f)) = true :=
  claim_C10_falsy_result cEvtFalsyResult (by decide) (by decide) (by decide)

theorem foldl_append_eq_concat (history : List JVal) (s : String) :
    history.foldl (fun acc msg => acc ++ renderHistoryMsg msg) s
      = s ++ concatStrings (history.map renderHistoryMsg) := by
  induction history generalizing s with
  | nil => simp [concatStrings]
  | cons m ms ih =>
    simp only [List.foldl_cons, List.map_cons, concatStrings, ih, String.append_assoc]

/-- C6: prompt assembly is a pure string transform that prepends the
fenced flow-context block exactly when a flow context with at least one
node is present, prepends the role-labelled transcript between its
header and the current-message delimiter exactly when the history is
non-empty, truncates every rendered message content beyond the fixed
500 character budget with the ... marker, and with empty history and no
flow context returns the raw prompt unchanged. -/
theorem claim_C6_prompt_assembly (promptVal : JVal) (history : List JVal) (fc : JVal) :
    composeFullPrompt promptVal history fc
      = flowContextPart fc ++ transcriptPart history ++ jsToString promptVal
    ∧ (∀ p : String, composeFullPrompt (.str p) [] .null = p)
    ∧ (∀ msg : JVal, renderHistoryMsg msg =
        (if msg.get "role" = .str "user" then "User" else "Assistant") ++ ": " ++
        (if (historyContentString msg).length > 500
         then (historyContentString msg).take 500 ++ "..."
         else historyContentString msg) ++ "\n") := by
  refine ⟨?_, ?_, ?_⟩
  · simp only [composeFullPrompt, flowContextPart, transcriptPart]
    cases history with
    | nil =>
      rw [if_neg (by simp : ¬(([] : List JVal).length > 0)), if_pos rfl]
      split_ifs <;> simp [String.append_empty, String.empty_append]
    | cons m ms =>
      rw [if_pos (by simp : (m :: ms).length > 0), if_neg (by simp : ¬(m :: ms = [])),
        foldl_append_eq_concat]
      split_ifs <;> simp [String.append_assoc]
  · intro p
    simp [composeFullPrompt, flowContextGuard, truthy, jsToString]
  · intro msg
    simp [renderHistoryMsg]

theorem dirRun_killed_mono (tr : List DirEvent) :
    ∀ st : DirState, st.killed = true → (dirRun st tr).1.killed = true := by
  induction tr with
  | nil => intro st h; exact h
  | cons e es ih =>
    intro st h
    cases e with
    | stdoutData ch => exact ih _ h
    | procClose => exact ih _ h
    | procError m => exact ih _ h
    | reqClose => exact ih _ rfl

theorem dirRun_reqClose_killed (tr : List DirEvent) :
    ∀ st : DirState, DirEvent.reqClose ∈ tr → (dirRun st tr).1.killed = true := by
  induction tr with
  | nil => intro st h; cases h
  | cons e es ih =>
    intro st h
    by_cases he : e = DirEvent.reqClose
    · subst he
      exact dirRun_killed_mono es _ rfl
    · rcases List.mem_cons.mp h with h1 | h1
      · exact absurd h1.symm he
      · exact ih _ h1

theorem pollRun_groupKilled_mono (tr : List PollEvent) :
    ∀ st : PollState, st.groupKilled = true → (pollRun st tr).1.groupKilled = true := by
  induction tr with
  | nil => intro st h; exact h
  | cons e es ih =>
    intro st h
    cases e with
    | reqClose => exact ih _ rfl
    | poll d a =>
      by_cases hc : st.closed = true ∨ st.finished = true
      · have hstep : pollStep st (.poll d a) = (st, []) := by
          simp [pollStep, hc]
        simp only [pollRun]
        rw [hstep]
        exact ih _ h
      · cases ha : a with
        | true =>
          simp only [pollRun, pollStep, if_neg hc, ha]
          exact ih _ h
        | false =>
          simp only [pollRun, pollStep, if_neg hc, ha]
          exact ih _ h

/-- Once the closed flag is set the poll loop never writes again and
the flag stays set. -/
theorem pollRun_closed_silent (tr : List PollEvent) :
    ∀ st : PollState, st.closed = true →
      (pollRun st tr).2 = [] ∧ (pollRun st tr).1.closed = true := by
  induction tr with
  | nil => intro st h; exact ⟨rfl, h⟩
  | cons e es ih =>
    intro st h
    cases e with
    | reqClose =>
      have h2 := ih { st with closed := true, groupKilled := true } rfl
      simp only [pollRun, pollStep]
      exact ⟨by simpa using h2.1, h2.2⟩
    | poll d a =>
      have hstep : pollStep st (.poll d a) = (st, []) := by
        simp [pollStep, h]
      have h2 := ih st h
      simp only [pollRun]
      rw [hstep]
      simpa using h2

theorem pollRun_append (a b : List PollEvent) : ∀ st : PollState,
    pollRun st (a ++ b)
      = ((pollRun (pollRun st a).1 b).1,
         (pollRun st a).2 ++ (pollRun (pollRun st a).1 b).2) := by
  induction a with
  | nil => intro st; simp [pollRun]
  | cons e es ih =>
    intro st
    simp only [List.cons_append, pollRun, List.append_eq]
    rw [ih]
    simp [List.append_assoc]

/-- C8 counterexample: in the direct-pipe variant, after the client
disconnect handler runs (killing the subprocess), the subsequent
process close handler still writes the [DONE] sentinel to the closed
response — a write tagged as after the disconnect. -/
theorem claim_C8_counterexample :
    (true, Frame.done) ∈ (dirRun dirInit [DirEvent.reqClose, DirEvent.procClose]).2
    ∧ (dirRun dirInit [DirEvent.reqClose, DirEvent.procClose]).1.killed = true := by
  decide

/-- C8 amended: a client disconnect during an active relay always
terminates the subprocess — the direct variant sends SIGTERM, the
polling variant kills the detached process group — and the polling
variant writes nothing after the disconnect: every poll tick after the
closed flag is set returns without writing, so the run over any events
after the disconnect adds no output.  (The direct variant, by contrast,
still lets its process close, error and stdout handlers write to the
closed response, as the counterexample shows.) -/
theorem claim_C8_amended_cancellation (dtrace : List DirEvent) (pre post : List PollEvent)
    (h : DirEvent.reqClose ∈ dtrace) :
    (dirRun dirInit dtrace).1.killed = true
    ∧ (pollRun pollInit (pre ++ PollEvent.reqClose :: post)).2 = (pollRun pollInit pre).2
    ∧ (pollRun pollInit (pre ++ PollEvent.reqClose :: post)).1.groupKilled = true := by
  refine ⟨dirRun_reqClose_killed dtrace dirInit h, ?_, ?_⟩
  · rw [pollRun_append]
    have hmid := pollRun_closed_silent post
      { (pollRun pollInit pre).1 with closed := true, groupKilled := true } rfl
    simp only [pollRun, pollStep]
    simp [hmid.1]
  · rw [pollRun_append]
    simp only [pollRun, pollStep]
    exact pollRun_groupKilled_mono post _ rfl

/-- C8 witness: with a disconnect as the only direct-variant event and
a disconnect followed by a further poll tick in the polling variant,
the subprocess is killed, the process group is killed, and the polling
variant output equals the output of the run without the post-disconnect
events. -/
theorem claim_C8_witness :
    (dirRun dirInit [DirEvent.reqClose]).1.killed = true
    ∧ (pollRun pollInit ([] ++ PollEvent.reqClose :: [PollEvent.poll ("x".toList) true])).2
        = (pollRun pollInit []).2
    ∧ (pollRun pollInit ([] ++ PollEvent.reqClose :: [PollEvent.poll ("x".toList) true])).1.groupKilled
        = true :=
  claim_C8_amended_cancellation [DirEvent.reqClose] [] [PollEvent.poll ("x".toList) true]
    (by decide)

/-- C9 counterexample: the body null is valid JSON with no prompt
field, yet the handler does not reply 400 Missing prompt: the unguarded
body.prompt access throws an uncaught TypeError in both companion
variants. -/
theorem claim_C9_counterexample :
    jsonParse "null" = some JVal.null
    ∧ JVal.null.get "prompt" = JVal.undefined
    ∧ handleChatPoll "null" [] = ChatOutcome.crash
    ∧ handleChatCompanion "null" SpawnResult.ok [] StreamEnd.closed = ChatOutcome.crash
    ∧ handleChatPoll "null" [] ≠ ChatOutcome.httpError 400 "\x7b\"error\":\"Missing prompt\"\x7d" := by
  decide

/-- C9 amended: for every /chat body that is valid JSON other than the
literal null (on which the handler throws instead of replying) and
whose prompt field is absent or the empty string, both companion
variants reply HTTP 400 with the Missing prompt error body and open no
SSE stream: the outcome is the http error, never a stream, so no SSE
header, subprocess, event or [DONE] write happens. -/
theorem claim_C9_amended_missing_prompt (bodyStr : String) (body : JVal)
    (hparse : jsonParse bodyStr = some body) (hnn : body ≠ JVal.null)
    (hp : body.get "prompt" = .undefined ∨ body.get "prompt" = .str "") :
    (∀ outChunks : List (List Char),
       handleChatPoll bodyStr outChunks
         = ChatOutcome.httpError 400 "\x7b\"error\":\"Missing prompt\"\x7d")
    ∧ (∀ (sr : SpawnResult) (chunks : List (List Char)) (ending : StreamEnd),
       handleChatCompanion bodyStr sr chunks ending
         = ChatOutcome.httpError 400 "\x7b\"error\":\"Missing prompt\"\x7d") := by
  have ht : truthy (body.get "prompt") = false := by
    rcases hp with h | h <;> simp [h, truthy]
  have ht2 : truthy (JVal.str "") = false := by decide
  constructor
  · intro outChunks
    simp [handleChatPoll, hparse, hnn, ht, ht2]
  · intro sr chunks ending
    simp [handleChatCompanion, hparse, hnn, ht, ht2]

/-- C9 witness: the concrete body of an empty JSON object gets the 400
Missing prompt reply from both variants. -/
theorem claim_C9_witness :
    handleChatPoll "\x7b\x7d" [] = ChatOutcome.httpError 400 "\x7b\"error\":\"Missing prompt\"\x7d"
    ∧ handleChatCompanion "\x7b\x7d" SpawnResult.ok [] StreamEnd.closed
        = ChatOutcome.httpError 400 "\x7b\"error\":\"Missing prompt\"\x7d" := by
  have h := claim_C9_amended_missing_prompt "\x7b\x7d" (JVal.obj .nil)
    (by decide) (by decide) (Or.inl (by decide))
  exact ⟨h.1 [], h.2 SpawnResult.ok [] StreamEnd.closed⟩

/-! ## Library lemmas for the UTF-8 decode of encoded streams -/

theorem utf8Start_ascii (b : Nat) (h : b < 0x80) :
    utf8Start b = ([Char.ofNat b], (0, 0, 0x80, 0xBF)) := by
  simp [utf8Start, h]

theorem utf8Start_two (b : Nat) (h1 : 0xC2 ≤ b) (h2 : b ≤ 0xDF) :
    utf8Start b = ([], (1, b - 0xC0, 0x80, 0xBF)) := by
  unfold utf8Start
  rw [if_neg (by omega), if_pos ⟨h1, h2⟩]

theorem utf8Start_three (b : Nat) (h1 : 0xE0 ≤ b) (h2 : b ≤ 0xEF) :
    utf8Start b
      = ([], (2, b - 0xE0, if b = 0xE0 then 0xA0 else 0x80, if b = 0xED then 0x9F else 0xBF)) := by
  unfold utf8Start
  rw [if_neg (by omega), if_neg (by omega), if_pos ⟨h1, h2⟩]

theorem utf8Start_four (b : Nat) (h1 : 0xF0 ≤ b) (h2 : b ≤ 0xF4) :
    utf8Start b
      = ([], (3, b - 0xF0, if b = 0xF0 then 0x90 else 0x80, if b = 0xF4 then 0x8F else 0xBF)) := by
  unfold utf8Start
  rw [if_neg (by omega), if_neg (by omega), if_neg (by omega), if_pos ⟨h1, h2⟩]

theorem utf8Run_start (b : Nat) (rest : List Nat) :
    utf8Run 0 0 0x80 0xBF (b :: rest)
      = (utf8Start b).1
        ++ utf8Run (utf8Start b).2.1 (utf8Start b).2.2.1 (utf8Start b).2.2.2.1
            (utf8Start b).2.2.2.2 rest := rfl

theorem utf8Run_last (cp lo hi b : Nat) (rest : List Nat) (h : lo ≤ b ∧ b ≤ hi) :
    utf8Run 1 cp lo hi (b :: rest)
      = Char.ofNat (cp * 64 + (b - 0x80)) :: utf8Run 0 0 0x80 0xBF rest := by
  simp only [utf8Run]
  rw [if_pos h]
  simp

theorem utf8Run_mid (needed cp lo hi b : Nat) (rest : List Nat) (h : lo ≤ b ∧ b ≤ hi) :
    utf8Run (needed + 2) cp lo hi (b :: rest)
      = utf8Run (needed + 1) (cp * 64 + (b - 0x80)) 0x80 0xBF rest := by
  simp only [utf8Run]
  rw [if_pos h]
  simp

theorem utf8Run_step2 (cp lo hi b : Nat) (rest : List Nat) (h : lo ≤ b ∧ b ≤ hi) :
    utf8Run 2 cp lo hi (b :: rest)
      = utf8Run 1 (cp * 64 + (b - 0x80)) 0x80 0xBF rest := by
  simp only [utf8Run]
  rw [if_pos h]
  simp

theorem utf8Run_step3 (cp lo hi b : Nat) (rest : List Nat) (h : lo ≤ b ∧ b ≤ hi) :
    utf8Run 3 cp lo hi (b :: rest)
      = utf8Run 2 (cp * 64 + (b - 0x80)) 0x80 0xBF rest := by
  simp only [utf8Run]
  rw [if_pos h]
  simp

/-- Decoding a stream that starts with the encoding of a character
yields that character and continues with the rest of the stream: the
decoder accepts exactly the bytes the encoder produces. -/
theorem utf8Decode_encodeChar_append (c : Char) (bs : List Nat) :
    utf8Decode (utf8EncodeChar c ++ bs) = c :: utf8Decode bs := by
  have hv : Nat.isValidChar c.toNat := c.valid
  unfold utf8Decode
  by_cases h1 : c.toNat < 0x80
  · have he : utf8EncodeChar c = [c.toNat] := by
      simp [utf8EncodeChar, h1]
    rw [he]
    simp only [List.cons_append, List.nil_append]
    rw [utf8Run_start, utf8Start_ascii _ h1, Char.ofNat_toNat]
    rfl
  · by_cases h2 : c.toNat < 0x800
    · have he : utf8EncodeChar c = [0xC0 + c.toNat / 64, 0x80 + c.toNat % 64] := by
        simp [utf8EncodeChar, h1, h2]
      rw [he]
      simp only [List.cons_append, List.nil_append]
      rw [utf8Run_start, utf8Start_two _ (by omega) (by omega)]
      simp only []
      rw [utf8Run_last _ _ _ _ _ ⟨by omega, by omega⟩]
      have harg : (0xC0 + c.toNat / 64 - 0xC0) * 64 + (0x80 + c.toNat % 64 - 0x80)
          = c.toNat := by omega
      rw [harg, Char.ofNat_toNat]
      rfl
    · by_cases h3 : c.toNat < 0x10000
      · have he : utf8EncodeChar c
            = [0xE0 + c.toNat / 4096, 0x80 + c.toNat / 64 % 64, 0x80 + c.toNat % 64] := by
          simp [utf8EncodeChar, h1, h2, h3]
        rw [he]
        simp only [List.cons_append, List.nil_append]
        rw [utf8Run_start, utf8Start_three _ (by omega) (by omega)]
        simp only []
        have hcond : (if 0xE0 + c.toNat / 4096 = 0xE0 then 0xA0 else 0x80)
              ≤ 0x80 + c.toNat / 64 % 64
            ∧ 0x80 + c.toNat / 64 % 64
              ≤ (if 0xE0 + c.toNat / 4096 = 0xED then 0x9F else 0xBF) := by
          rcases hv with hv | hv <;> constructor <;> split_ifs <;> omega
        rw [utf8Run_step2 _ _ _ _ _ hcond]
        rw [utf8Run_last _ _ _ _ _ ⟨by omega, by omega⟩]
        have harg : ((0xE0 + c.toNat / 4096 - 0xE0) * 64 + (0x80 + c.toNat / 64 % 64 - 0x80)) * 64
            + (0x80 + c.toNat % 64 - 0x80) = c.toNat := by omega
        rw [harg, Char.ofNat_toNat]
        rfl
      · have hlt : c.toNat < 0x110000 := by
          rcases hv with hv | hv <;> omega
        have he : utf8EncodeChar c
            = [0xF0 + c.toNat / 262144, 0x80 + c.toNat / 4096 % 64,
               0x80 + c.toNat / 64 % 64, 0x80 + c.toNat % 64] := by
          simp [utf8EncodeChar, h1, h2, h3]
        rw [he]
        simp only [List.cons_append, List.nil_append]
        rw [utf8Run_start, utf8Start_four _ (by omega) (by omega)]
        simp only []
        have hcond : (if 0xF0 + c.toNat / 262144 = 0xF0 then 0x90 else 0x80)
              ≤ 0x80 + c.toNat / 4096 % 64
            ∧ 0x80 + c.toNat / 4096 % 64
              ≤ (if 0xF0 + c.toNat / 262144 = 0xF4 then 0x8F else 0xBF) := by
          constructor <;> split_ifs <;> omega
        rw [utf8Run_step3 _ _ _ _ _ hcond]
        rw [utf8Run_step2 _ _ _ _ _ ⟨by omega, by omega⟩]
        rw [utf8Run_last _ _ _ _ _ ⟨by omega, by omega⟩]
        have harg : (((0xF0 + c.toNat / 262144 - 0xF0) * 64 + (0x80 + c.toNat / 4096 % 64 - 0x80))
              * 64 + (0x80 + c.toNat / 64 % 64 - 0x80)) * 64 + (0x80 + c.toNat % 64 - 0x80)
            = c.toNat := by omega
        rw [harg, Char.ofNat_toNat]
        rfl

theorem utf8Decode_encode_append (cs : List Char) (bs : List Nat) :
    utf8Decode (utf8Encode cs ++ bs) = cs ++ utf8Decode bs := by
  induction cs with
  | nil => simp [utf8Encode]
  | cons c rest ih =>
    have he : utf8Encode (c :: rest) = utf8EncodeChar c ++ utf8Encode rest := by
      simp [utf8Encode, List.flatMap_cons]
    rw [he, List.append_assoc, utf8Decode_encodeChar_append, ih, List.cons_append]

theorem utf8Decode_encode (cs : List Char) : utf8Decode (utf8Encode cs) = cs := by
  have h := utf8Decode_encode_append cs []
  simpa [utf8Decode, utf8Run] using h

theorem utf8Encode_flatten (l : List (List Char)) :
    (l.map utf8Encode).flatten = utf8Encode l.flatten := by
  induction l with
  | nil => rfl
  | cons x xs ih =>
    simp [utf8Encode, List.flatMap_append, ih]

/-- C1 counterexample: the two-byte character é followed by a newline,
cut between the two bytes of é.  Each chunk is decoded on its own by
Buffer.toString, so both halves become replacement characters and the
chunked process recovers the line of two replacement characters, while
the one-step split of the unchunked stream recovers the line é: the
cutting changes the recovered lines. -/
theorem claim_C1_counterexample :
    byteRelayLines [[0xC3], [0xA9, 0x0A]]
        ≠ byteOneShotLines ([[0xC3], [0xA9, 0x0A]] : List (List Nat)).flatten
    ∧ ([[0xC3], [0xA9, 0x0A]] : List (List Nat)).flatten = [0xC3, 0xA9, 0x0A]
    ∧ byteRelayLines [[0xC3], [0xA9, 0x0A]] = [[replChar, replChar]]
    ∧ byteOneShotLines [0xC3, 0xA9, 0x0A] = [['é']] := by
  decide

/-- C1 amended: for every byte stream and every way of cutting it that
respects character boundaries — each chunk the UTF-8 encoding of a
character sequence — feeding the chunks one at a time through the line
buffer (decode the chunk, append, split on newline, keep the trailing
partial segment, flush the final non-empty remainder at end of stream)
recovers exactly the same sequence of complete lines, in the same
order, as splitting the whole unchunked stream in one step.  A cutting
inside a multi-byte character escapes this (see the counterexample):
each chunk is decoded on its own and the split halves become
replacement characters. -/
theorem claim_C1_amended_aligned_chunking (charChunks : List (List Char)) :
    byteRelayLines (charChunks.map utf8Encode)
      = byteOneShotLines (charChunks.map utf8Encode).flatten := by
  unfold byteRelayLines byteOneShotLines
  have hdec : (charChunks.map utf8Encode).map utf8Decode = charChunks := by
    rw [List.map_map]
    have hfun : utf8Decode ∘ utf8Encode = id := funext utf8Decode_encode
    rw [hfun, List.map_id]
  rw [hdec, utf8Encode_flatten, utf8Decode_encode]
  exact relayLines_eq_oneShotLines charChunks
